import Mathlib

set_option maxRecDepth 4000

/-!
Verification of the polybot core against its natural-language specification.

The development shallowly embeds the four core subsystems of the repository —
the in-memory market store (`src/server/market/marketStore.ts`), the arbitrage
detector (`src/server/arbitrage/arbitrageDetector.ts`), the paper execution
engine (`src/server/trading/paperExecutionEngine.ts`) and the copy-trading
sizing / trade-window logic (`src/server/copytrading/copyTradingService.ts`) —
as executable Lean functions over ℚ, and proves or refutes the frozen claims
about them.

Modelling conventions:
* JavaScript numbers are modelled as ℚ (the code performs only field
  arithmetic on them); `null`/`undefined` become `Option`.
* JavaScript truthiness (`a || b`, `if (x)`) is embedded explicitly: `0`,
  `null`, `undefined` and `""` are falsy (`jsOrQ`, `jsOrD`, `jsOrOpt`,
  `jsOrS`, `jsTruthyPrice`).
* JS `Map`s become insertion-ordered association lists (`mapGet`, `mapSet`,
  `mapDelete`): `set` of an existing key updates the value in place keeping
  its position, otherwise appends; iteration order is list order, so the
  "first key" of a map is the list head.
* `Date.now()` and the ambient clock are passed as an explicit `now : ℤ`.
* Generated UUIDs (`tradeId`, `fillId`, `positionId`) are opaque identifiers
  never inspected by the logic under verification and are omitted from the
  embedded records.
* Order-book level prices arrive as strings and are fed to `parseFloat`; a
  level is embedded as the parse result (`Option ℚ`, `none` for NaN).
-/

namespace Polybot

/-- JS `a || b` where both sides are numbers: `a` wins unless it is `0`. -/
def jsOrQ (a b : ℚ) : ℚ := if a = 0 then b else a

/-- JS `a || b` where `a` is a nullable number and `b` a number:
`null`/`undefined` and `0` fall through to `b`. -/
def jsOrD (a : Option ℚ) (b : ℚ) : ℚ :=
  match a with
  | some x => if x = 0 then b else x
  | none => b

/-- JS `a || b` for nullable numbers, result nullable. -/
def jsOrOpt (a b : Option ℚ) : Option ℚ :=
  match a with
  | some x => if x = 0 then b else some x
  | none => b

/-- JS `a || b` for strings: the empty string is falsy. -/
def jsOrS (a b : String) : String := if a = "" then b else a

/-- JS `if (order.price)`: an optional number is truthy iff present and
nonzero.  Returns the price when truthy. -/
def jsTruthyPrice (p : Option ℚ) : Option ℚ :=
  match p with
  | some x => if x = 0 then none else some x
  | none => none

/-- Lookup in an insertion-ordered association list (JS `Map.get`). -/
def mapGet {α : Type} : List (String × α) → String → Option α
  | [], _ => none
  | e :: rest, k => if e.1 = k then some e.2 else mapGet rest k

/-- JS `Map.has`. -/
def mapContains {α : Type} : List (String × α) → String → Bool
  | [], _ => false
  | e :: rest, k => if e.1 = k then true else mapContains rest k

/-- Replace the value stored under an existing key, keeping its position. -/
def mapReplace {α : Type} : List (String × α) → String → α → List (String × α)
  | [], _, _ => []
  | e :: rest, k, v => if e.1 = k then (k, v) :: rest else e :: mapReplace rest k v

/-- JS `Map.set`: update in place when the key exists, else append. -/
def mapSet {α : Type} (m : List (String × α)) (k : String) (v : α) :
    List (String × α) :=
  if mapContains m k then mapReplace m k v else m ++ [(k, v)]

/-- JS `Map.delete` (a JS map holds each key at most once). -/
def mapDelete {α : Type} : List (String × α) → String → List (String × α)
  | [], _ => []
  | e :: rest, k => if e.1 = k then mapDelete rest k else e :: mapDelete rest k

/-- The stored keys of an association list. -/
def mapKeys {α : Type} (m : List (String × α)) : List String := m.map (·.1)

/- ------------------------------------------------------------------ -/
/- Market store (src/server/market/marketStore.ts, market/types.ts)   -/
/- ------------------------------------------------------------------ -/

/-- `OutcomePrices` from `src/server/market/types.ts`. -/
structure OutcomePrices where
  bid : Option ℚ
  ask : Option ℚ
  lastUpdate : ℤ
deriving DecidableEq

/-- `MarketData` from `src/server/market/types.ts`. -/
structure MarketData where
  marketId : String
  conditionId : String
  yesPrices : OutcomePrices
  noPrices : OutcomePrices
  lastUpdate : ℤ
  isStale : Bool
deriving DecidableEq

/-- One order-book level; `price` is the `parseFloat` result of the level's
price string (`none` when the string parses to NaN). -/
structure OrderBookLevel where
  price : Option ℚ
deriving DecidableEq

/-- `OrderBookUpdate` from `src/server/market/types.ts`;
`outcome = true` means YES. -/
structure OrderBookUpdate where
  marketId : String
  conditionId : String
  assetId : String
  outcome : Bool
  bids : List OrderBookLevel
  asks : List OrderBookLevel
  timestamp : ℤ
deriving DecidableEq

/-- The `MarketStore` state. -/
structure MarketStore where
  markets : List (String × MarketData)
  staleThresholdMs : ℤ
deriving DecidableEq

/-- `MarketStore.createEmptyPrices`. -/
def createEmptyPrices : OutcomePrices := { bid := none, ask := none, lastUpdate := 0 }

/-- `MarketStore.extractBestBid`: the head level's parsed price, `null` for an
empty book side or a NaN parse. -/
def extractBestBid (bids : List OrderBookLevel) : Option ℚ :=
  match bids with
  | [] => none
  | best :: _ => best.price

/-- `MarketStore.extractBestAsk`: the head level's parsed price, `null` for an
empty book side or a NaN parse. -/
def extractBestAsk (asks : List OrderBookLevel) : Option ℚ :=
  match asks with
  | [] => none
  | best :: _ => best.price

/-- `MarketStore.isStale` at clock `now`. -/
def staleAt (store : MarketStore) (now lastUpdate : ℤ) : Bool :=
  decide (store.staleThresholdMs < now - lastUpdate)

/-- `MarketStore.updateOrderBook`. -/
def updateOrderBook (store : MarketStore) (now : ℤ) (update : OrderBookUpdate) :
    MarketStore :=
  let key := jsOrS update.marketId (jsOrS update.conditionId update.assetId)
  let marketData :=
    match mapGet store.markets key with
    | some m => m
    | none =>
      { marketId := jsOrS update.marketId update.assetId
        conditionId := jsOrS update.conditionId update.assetId
        yesPrices := createEmptyPrices
        noPrices := createEmptyPrices
        lastUpdate := update.timestamp
        isStale := false }
  let bestBid := extractBestBid update.bids
  let bestAsk := extractBestAsk update.asks
  let newPrices : OutcomePrices :=
    { bid := bestBid, ask := bestAsk, lastUpdate := update.timestamp }
  let md1 :=
    if update.outcome then { marketData with yesPrices := newPrices }
    else { marketData with noPrices := newPrices }
  let newLast := max md1.lastUpdate update.timestamp
  let md2 := { md1 with lastUpdate := newLast, isStale := staleAt store now newLast }
  { store with markets := mapSet store.markets key md2 }

/-- `MarketStore.getMarket`: staleness is recomputed lazily on read. -/
def getMarket (store : MarketStore) (now : ℤ) (marketId : String) :
    Option MarketData :=
  match mapGet store.markets marketId with
  | none => none
  | some m => some { m with isStale := staleAt store now m.lastUpdate }

/-- A fresh store with the given stale threshold. -/
def emptyStore (staleThresholdMs : ℤ) : MarketStore :=
  { markets := [], staleThresholdMs := staleThresholdMs }

/-- Fold a timed sequence of order-book updates into a store. -/
def applyUpdates (store : MarketStore) (updates : List (ℤ × OrderBookUpdate)) :
    MarketStore :=
  updates.foldl (fun s u => updateOrderBook s u.1 u.2) store

/-- The claim-C3 condition on one stored quote field: absent, or in (0,1]. -/
def quoteOk : Option ℚ → Prop
  | none => True
  | some x => 0 < x ∧ x ≤ 1

instance : DecidablePred quoteOk := fun q =>
  match q with
  | none => isTrue trivial
  | some x => inferInstanceAs (Decidable (0 < x ∧ x ≤ 1))

/-- All four stored quote fields of one market satisfy `quoteOk`. -/
def marketQuotesOk (m : MarketData) : Prop :=
  quoteOk m.yesPrices.bid ∧ quoteOk m.yesPrices.ask ∧
    quoteOk m.noPrices.bid ∧ quoteOk m.noPrices.ask

instance : DecidablePred marketQuotesOk := fun _m =>
  inferInstanceAs (Decidable (_ ∧ _ ∧ _ ∧ _))

/-- Every market stored in the store satisfies `marketQuotesOk`. -/
def storeQuotesOk (s : MarketStore) : Prop :=
  ∀ e ∈ s.markets, marketQuotesOk e.2

instance (s : MarketStore) : Decidable (storeQuotesOk s) :=
  List.decidableBAll _ s.markets

/-- An order-book update whose parsable top-of-book prices lie in (0,1]. -/
def goodUpdate (u : OrderBookUpdate) : Prop :=
  quoteOk (extractBestBid u.bids) ∧ quoteOk (extractBestAsk u.asks)

instance : DecidablePred goodUpdate := fun _u =>
  inferInstanceAs (Decidable (_ ∧ _))

/- ------------------------------------------------------------------ -/
/- Trading types (src/server/trading/types.ts)                        -/
/- ------------------------------------------------------------------ -/

/-- `TradeSide`. -/
inductive TradeSide
  | yes
  | no
deriving DecidableEq

/-- `TradeAction`. -/
inductive TradeAction
  | buy
  | sell
deriving DecidableEq

/-- `ExecutionMode`. -/
inductive ExecutionMode
  | paper
  | real
deriving DecidableEq

/-- `OrderStatus` (`partFilled` embeds the source's partly-filled status). -/
inductive OrderStatus
  | pending
  | filled
  | partFilled
  | rejected
  | cancelled
deriving DecidableEq

/-- `TradeOrder` (`price = none` means a market order). -/
structure TradeOrder where
  orderId : String
  marketId : String
  conditionId : String
  side : TradeSide
  action : TradeAction
  size : ℚ
  price : Option ℚ
  mode : ExecutionMode
  timestamp : ℤ
deriving DecidableEq

/-- `Fill` (the generated `fillId` UUID is omitted). -/
structure Fill where
  orderId : String
  price : ℚ
  size : ℚ
  timestamp : ℤ
deriving DecidableEq

/-- `FillResult`. -/
structure FillResult where
  orderId : String
  fills : List Fill
  status : OrderStatus
  totalFilled : ℚ
  averagePrice : ℚ
  timestamp : ℤ
deriving DecidableEq

/-- `Position` (the generated `positionId` UUID is omitted). -/
structure Position where
  marketId : String
  conditionId : String
  yesTokens : ℚ
  noTokens : ℚ
  yesEntryPrice : ℚ
  noEntryPrice : ℚ
  yesCurrentPrice : Option ℚ
  noCurrentPrice : Option ℚ
  entryTimestamp : ℤ
  lastUpdate : ℤ
  unrealizedPnL : ℚ
  totalEntryCost : ℚ
deriving DecidableEq

/-- `TradeRecord` (the generated `tradeId` UUID is omitted). -/
structure TradeRecord where
  orderId : String
  marketId : String
  conditionId : String
  side : TradeSide
  action : TradeAction
  size : ℚ
  price : ℚ
  status : OrderStatus
  timestamp : ℤ
  mode : ExecutionMode
deriving DecidableEq

/-- The mutable state of a `PaperExecutionEngine`. -/
structure EngineState where
  positions : List (String × Position)
  tradeHistory : List TradeRecord
  currentBalance : ℚ
  realizedPnL : ℚ
  startingCapital : ℚ
deriving DecidableEq

/- ------------------------------------------------------------------ -/
/- Paper execution engine (src/server/trading/paperExecutionEngine.ts)-/
/- ------------------------------------------------------------------ -/

/-- The rejection `FillResult` returned by every early-return branch of
`executeTrade`. -/
def rejectedResult (order : TradeOrder) (now : ℤ) : FillResult :=
  { orderId := order.orderId, fills := [], status := .rejected,
    totalFilled := 0, averagePrice := 0, timestamp := now }

/-- The trade-history cap: `if (length > 1000) slice(-1000)`. -/
def trimHistory (h : List TradeRecord) : List TradeRecord :=
  if 1000 < h.length then h.drop (h.length - 1000) else h

/-- `PaperExecutionEngine.updatePositionPnL`: refresh a position's current
prices (`ask || bid || null`) and unrealized PnL from the store. -/
def updatePositionPnL (store : MarketStore) (now : ℤ) (p : Position) : Position :=
  match getMarket store now p.marketId with
  | none => { p with yesCurrentPrice := none, noCurrentPrice := none, unrealizedPnL := 0 }
  | some market =>
    let yc := jsOrOpt market.yesPrices.ask (jsOrOpt market.yesPrices.bid none)
    let nc := jsOrOpt market.noPrices.ask (jsOrOpt market.noPrices.bid none)
    let yesValue := p.yesTokens * jsOrD yc 0
    let noValue := p.noTokens * jsOrD nc 0
    { p with yesCurrentPrice := yc, noCurrentPrice := nc,
             unrealizedPnL := yesValue + noValue - p.totalEntryCost }

/-- The position looked up — or freshly created — at the top of
`PaperExecutionEngine.updatePosition`. -/
def positionOrNew (st : EngineState) (order : TradeOrder) (now : ℤ) : Position :=
  match mapGet st.positions order.marketId with
  | some p => p
  | none =>
    { marketId := order.marketId, conditionId := order.conditionId,
      yesTokens := 0, noTokens := 0, yesEntryPrice := 0, noEntryPrice := 0,
      yesCurrentPrice := none, noCurrentPrice := none,
      entryTimestamp := now, lastUpdate := now, unrealizedPnL := 0,
      totalEntryCost := 0 }

/-- `PaperExecutionEngine.updatePosition` (the `price` argument is unused in
the source as well). -/
def updatePosition (store : MarketStore) (now : ℤ) (st : EngineState)
    (order : TradeOrder) (_price tokens : ℚ) : EngineState :=
  let position := positionOrNew st order now
  let p1 :=
    match order.side, order.action with
    | .yes, .buy =>
      let totalCost := position.yesTokens * position.yesEntryPrice + order.size
      let newTokens := position.yesTokens + tokens
      { position with yesTokens := newTokens, yesEntryPrice := totalCost / newTokens }
    | .yes, .sell =>
      let newTokens := position.yesTokens - tokens
      if newTokens ≤ 0 then { position with yesTokens := 0, yesEntryPrice := 0 }
      else { position with yesTokens := newTokens }
    | .no, .buy =>
      let totalCost := position.noTokens * position.noEntryPrice + order.size
      let newTokens := position.noTokens + tokens
      { position with noTokens := newTokens, noEntryPrice := totalCost / newTokens }
    | .no, .sell =>
      let newTokens := position.noTokens - tokens
      if newTokens ≤ 0 then { position with noTokens := 0, noEntryPrice := 0 }
      else { position with noTokens := newTokens }
  let p2 := { p1 with
    totalEntryCost := p1.yesTokens * p1.yesEntryPrice + p1.noTokens * p1.noEntryPrice,
    lastUpdate := now }
  let p3 := updatePositionPnL store now p2
  { st with positions := mapSet st.positions order.marketId p3 }

/-- The fill-price resolution of `executeTrade`: the explicit (truthy) limit
price when given, otherwise the store's best ask (BUY) / best bid (SELL) with
`|| 0`; `none` when a market order finds no market data. -/
def resolvedFillPrice (store : MarketStore) (now : ℤ) (order : TradeOrder) :
    Option ℚ :=
  match jsTruthyPrice order.price with
  | some p => some p
  | none =>
    match getMarket store now order.marketId with
    | none => none
    | some market =>
      let prices := if order.side = .yes then market.yesPrices else market.noPrices
      some (if order.action = .buy then jsOrD prices.ask 0 else jsOrD prices.bid 0)

/-- The `TradeRecord` appended by a successful `executeTrade`. -/
def tradeRecordOf (order : TradeOrder) (fillPrice : ℚ) (now : ℤ) : TradeRecord :=
  { orderId := order.orderId, marketId := order.marketId,
    conditionId := order.conditionId, side := order.side, action := order.action,
    size := order.size, price := fillPrice, status := .filled,
    timestamp := now, mode := .paper }

/-- The success path of `executeTrade`: balance update, position update,
trade-history append (capped at 1000) and the filled `FillResult`. -/
def fillOutcome (store : MarketStore) (now : ℤ) (st : EngineState)
    (order : TradeOrder) (fillPrice : ℚ) : FillResult × EngineState :=
  let tokens := order.size / fillPrice
  let st1 := { st with currentBalance :=
    if order.action = .buy then st.currentBalance - order.size
    else st.currentBalance + order.size }
  let st2 := updatePosition store now st1 order fillPrice tokens
  let st3 := { st2 with
    tradeHistory := trimHistory (st2.tradeHistory ++ [tradeRecordOf order fillPrice now]) }
  ({ orderId := order.orderId,
     fills := [{ orderId := order.orderId, price := fillPrice,
                 size := order.size, timestamp := now }],
     status := .filled, totalFilled := order.size, averagePrice := fillPrice,
     timestamp := now }, st3)

/-- `PaperExecutionEngine.executeTrade`.  A non-paper order throws; every
paper order returns a result value (`.ok`). -/
def executeTrade (store : MarketStore) (now : ℤ) (st : EngineState)
    (order : TradeOrder) : Except String (FillResult × EngineState) :=
  if order.mode ≠ .paper then
    .error "Paper execution engine only handles paper trades"
  else
    match resolvedFillPrice store now order with
    | none => .ok (rejectedResult order now, st)
    | some fillPrice =>
      if fillPrice ≤ 0 ∨ 1 < fillPrice then .ok (rejectedResult order now, st)
      else if order.action = .buy ∧ st.currentBalance < order.size then
        .ok (rejectedResult order now, st)
      else .ok (fillOutcome store now st order fillPrice)

/-- `PaperExecutionEngine.closePosition`.  Note that the per-leg realized-PnL
line of the source reads the position object after `executeTrade` has already
mutated it (both alias the same map entry); the embedding mirrors that by
re-reading the position from the post-trade state. -/
def closePosition (store : MarketStore) (now : ℤ) (st : EngineState)
    (marketId : String) : List FillResult × EngineState :=
  match mapGet st.positions marketId with
  | none => ([], st)
  | some position =>
    let step1 : List FillResult × EngineState :=
      if 0 < position.yesTokens then
        let market := getMarket store now marketId
        let fillPrice := jsOrD (market.bind (fun m => m.yesPrices.bid)) position.yesEntryPrice
        let order : TradeOrder :=
          { orderId := "", marketId := marketId, conditionId := position.conditionId,
            side := .yes, action := .sell, size := position.yesTokens * fillPrice,
            price := none, mode := .paper, timestamp := now }
        match executeTrade store now st order with
        | .error _ => ([], st)
        | .ok (result, stA) =>
          let posAfter := (mapGet stA.positions marketId).getD position
          let realized := posAfter.yesTokens * (fillPrice - posAfter.yesEntryPrice)
          ([result], { stA with realizedPnL := stA.realizedPnL + realized })
      else ([], st)
    let results1 := step1.1
    let st1 := step1.2
    let position1 := (mapGet st1.positions marketId).getD position
    let step2 : List FillResult × EngineState :=
      if 0 < position1.noTokens then
        let market := getMarket store now marketId
        let fillPrice := jsOrD (market.bind (fun m => m.noPrices.bid)) position1.noEntryPrice
        let order : TradeOrder :=
          { orderId := "", marketId := marketId, conditionId := position1.conditionId,
            side := .no, action := .sell, size := position1.noTokens * fillPrice,
            price := none, mode := .paper, timestamp := now }
        match executeTrade store now st1 order with
        | .error _ => (results1, st1)
        | .ok (result, stB) =>
          let posAfter := (mapGet stB.positions marketId).getD position1
          let realized := posAfter.noTokens * (fillPrice - posAfter.noEntryPrice)
          (results1 ++ [result], { stB with realizedPnL := stB.realizedPnL + realized })
      else (results1, st1)
    (step2.1, { step2.2 with positions := mapDelete step2.2.positions marketId })

/-- `PaperExecutionEngine.redeemPosition`: settle an existing position at
$1 per winning token / $0 per losing token (`winningOutcome = 0` means YES
won). -/
def redeemPosition (st : EngineState) (now : ℤ) (marketId : String)
    (winningOutcome : Fin 2) : EngineState :=
  match mapGet st.positions marketId with
  | none => st
  | some position =>
    let yesTokens := jsOrQ position.yesTokens 0
    let noTokens := jsOrQ position.noTokens 0
    let settlementPrice : ℚ := 1
    let settlementProceeds :=
      if winningOutcome = 0 then yesTokens * settlementPrice
      else noTokens * settlementPrice
    let realized :=
      if winningOutcome = 0 then
        yesTokens * (settlementPrice - position.yesEntryPrice)
          + noTokens * (0 - position.noEntryPrice)
      else
        noTokens * (settlementPrice - position.noEntryPrice)
          + yesTokens * (0 - position.yesEntryPrice)
    let redemptionRecord : TradeRecord :=
      { orderId := "", marketId := marketId, conditionId := position.conditionId,
        side := if winningOutcome = 0 then .yes else .no, action := .sell,
        size := settlementProceeds, price := settlementPrice, status := .filled,
        timestamp := now, mode := .paper }
    { st with
      currentBalance := st.currentBalance + settlementProceeds,
      realizedPnL := st.realizedPnL + realized,
      tradeHistory := trimHistory (st.tradeHistory ++ [redemptionRecord]),
      positions := mapDelete st.positions marketId }

/- ------------------------------------------------------------------ -/
/- Arbitrage detector (src/server/arbitrage/arbitrageDetector.ts)     -/
/- ------------------------------------------------------------------ -/

/-- `ArbitrageConfig` (the scan-interval and enabled flags play no role in
the detection logic). -/
structure ArbitrageConfig where
  minProfitThreshold : ℚ
  feeBuffer : ℚ
  safetyMargin : ℚ
  maxPositionSize : ℚ
deriving DecidableEq

/-- `ArbitrageOpportunity`. -/
structure ArbitrageOpportunity where
  marketId : String
  conditionId : String
  yesAsk : ℚ
  noAsk : ℚ
  totalCost : ℚ
  profitMargin : ℚ
  profitAfterFees : ℚ
  marketData : MarketData
  timestamp : ℤ
deriving DecidableEq

/-- `ExecutionPlan`. -/
structure ExecutionPlan where
  marketId : String
  conditionId : String
  yesSize : ℚ
  noSize : ℚ
  yesPrice : ℚ
  noPrice : ℚ
  totalCost : ℚ
  expectedProfit : ℚ
  timestamp : ℤ
deriving DecidableEq

/-- `ArbitrageDetector.detectArbitrage`. -/
def detectArbitrage (cfg : ArbitrageConfig) (market : MarketData) (now : ℤ) :
    Option ArbitrageOpportunity :=
  match market.yesPrices.ask, market.noPrices.ask with
  | some yesAsk, some noAsk =>
    if yesAsk ≤ 0 ∨ noAsk ≤ 0 then none
    else
      let totalCost := yesAsk + noAsk
      let requiredTotal := 1 - cfg.feeBuffer - cfg.safetyMargin
      if requiredTotal ≤ totalCost then none
      else
        let profitMargin := 1 - totalCost
        let profitAfterFees := profitMargin - cfg.feeBuffer
        if profitAfterFees < cfg.minProfitThreshold then none
        else some
          { marketId := market.marketId, conditionId := market.conditionId,
            yesAsk := yesAsk, noAsk := noAsk, totalCost := totalCost,
            profitMargin := profitMargin, profitAfterFees := profitAfterFees,
            marketData := market, timestamp := now }
  | _, _ => none

/-- `ArbitrageDetector.createExecutionPlan`: profit-proportional sizing
capped at `maxPositionSize`, split 50/50, re-validated against live prices.
Note the re-validation profit subtracts BOTH `feeBuffer` and `safetyMargin`,
unlike `detectArbitrage`'s `profitAfterFees`. -/
def createExecutionPlan (cfg : ArbitrageConfig) (store : MarketStore) (now : ℤ)
    (opportunity : ArbitrageOpportunity) : Option ExecutionPlan :=
  let totalSize := min cfg.maxPositionSize
    (cfg.maxPositionSize * opportunity.profitAfterFees / cfg.minProfitThreshold)
  let yesSize := totalSize / 2
  let noSize := totalSize / 2
  match getMarket store now opportunity.marketId with
  | none => none
  | some currentMarket =>
    match currentMarket.yesPrices.ask, currentMarket.noPrices.ask with
    | some currentYesAsk, some currentNoAsk =>
      let currentTotalCost := currentYesAsk + currentNoAsk
      let currentProfitAfterFees :=
        1 - currentTotalCost - cfg.feeBuffer - cfg.safetyMargin
      if currentProfitAfterFees < cfg.minProfitThreshold then none
      else some
        { marketId := opportunity.marketId, conditionId := opportunity.conditionId,
          yesSize := yesSize, noSize := noSize,
          yesPrice := currentYesAsk, noPrice := currentNoAsk,
          totalCost := yesSize + noSize,
          expectedProfit := (yesSize + noSize) * currentProfitAfterFees,
          timestamp := now }
    | _, _ => none

/- ------------------------------------------------------------------ -/
/- Copy trading (src/server/copytrading/copyTradingService.ts)        -/
/- ------------------------------------------------------------------ -/

/-- The sizing-relevant part of `CopyTradingConfig`. -/
structure CopyTradingConfig where
  minTradeSize : ℚ
  maxTradeSize : ℚ
  recentTradesWindow : ℕ
  minVolumeForScaling : ℚ
deriving DecidableEq

/-- Sum of a user's window entries excluding a given transaction hash
(the `recentVolume` loop of `calculateProportionalSize`). -/
def windowVolumeExcluding (window : List (String × ℚ)) (tradeHash : String) : ℚ :=
  (window.filter (fun e => e.1 ≠ tradeHash)).foldl (fun acc e => acc + e.2) 0

/-- `CopyTradingService.calculateProportionalSize`.  The argument
`tradeHistory` is `this.userTradeHistory.get(userAddress)` (`none` when the
user has no window yet); config fields go through the source's `|| default`
fallbacks. -/
def calculateProportionalSize (cfg : CopyTradingConfig)
    (tradeHistory : Option (List (String × ℚ))) (tradeSize : ℚ)
    (tradeHash : String) : ℚ :=
  let minVolumeForScaling := jsOrQ cfg.minVolumeForScaling 1000
  let maxTradeSize := jsOrQ cfg.maxTradeSize 1000
  match tradeHistory with
  | none => max (jsOrQ cfg.minTradeSize 10) (maxTradeSize * (1/10))
  | some window =>
    if window.length < 2 then
      max (jsOrQ cfg.minTradeSize 10) (maxTradeSize * (1/10))
    else
      let recentVolume := windowVolumeExcluding window tradeHash
      if recentVolume < minVolumeForScaling then
        max (jsOrQ cfg.minTradeSize 10) (maxTradeSize * (1/20))
      else
        let tradePercentageOfRecentVolume := tradeSize / recentVolume * 100
        let proportionalSize := maxTradeSize * tradePercentageOfRecentVolume / 100
        let finalSize := max (jsOrQ cfg.minTradeSize 10) proportionalSize
        min finalSize maxTradeSize

/-- One insertion step of the per-user trade window in `fetchUserTrades`:
`set(hash, size)`, then, when the window exceeds `windowSize`, delete the
first key of the map — but only when that key is truthy (`if (firstHash)`),
so an empty-string oldest key suppresses the eviction. -/
def windowInsert (windowSize : ℕ) (window : List (String × ℚ))
    (txHash : String) (size : ℚ) : List (String × ℚ) :=
  let w1 := mapSet window txHash size
  if windowSize < w1.length then
    match w1 with
    | [] => w1
    | first :: _ => if first.1 = "" then w1 else mapDelete w1 first.1
  else w1

/-- Fold a sequence of (hash, size) insertions into an initially empty
per-user trade window. -/
def windowFold (windowSize : ℕ) (inserts : List (String × ℚ)) :
    List (String × ℚ) :=
  inserts.foldl (fun w e => windowInsert windowSize w e.1 e.2) []

/- ------------------------------------------------------------------ -/
/- Association-list lemmas                                            -/
/- ------------------------------------------------------------------ -/

theorem jsOrQ_zero (x : ℚ) : jsOrQ x 0 = x := by
  unfold jsOrQ; split <;> simp_all

theorem mapGet_mapReplace_of_contains {α : Type} (m : List (String × α))
    (k : String) (v : α) (h : mapContains m k = true) :
    mapGet (mapReplace m k v) k = some v := by
  induction m with
  | nil => simp [mapContains] at h
  | cons e rest ih =>
    by_cases hk : e.1 = k
    · simp [mapReplace, hk, mapGet]
    · rw [mapContains, if_neg hk] at h
      simp [mapReplace, hk, mapGet, ih h]

theorem mapGet_append_of_not_contains {α : Type} (m : List (String × α))
    (k : String) (v : α) (h : mapContains m k = false) :
    mapGet (m ++ [(k, v)]) k = some v := by
  induction m with
  | nil => simp [mapGet]
  | cons e rest ih =>
    by_cases hk : e.1 = k
    · rw [mapContains, if_pos hk] at h; exact absurd h (by simp)
    · rw [mapContains, if_neg hk] at h
      simp only [List.cons_append, mapGet, if_neg hk]
      exact ih h

theorem mapGet_mapSet_self {α : Type} (m : List (String × α)) (k : String)
    (v : α) : mapGet (mapSet m k v) k = some v := by
  unfold mapSet
  by_cases h : mapContains m k = true
  · rw [if_pos h]; exact mapGet_mapReplace_of_contains m k v h
  · rw [if_neg h]
    exact mapGet_append_of_not_contains m k v (Bool.not_eq_true _ ▸ h)

theorem mapGet_mapDelete_self {α : Type} (m : List (String × α)) (k : String) :
    mapGet (mapDelete m k) k = none := by
  induction m with
  | nil => simp [mapDelete, mapGet]
  | cons e rest ih =>
    by_cases hk : e.1 = k
    · simp [mapDelete, hk, ih]
    · simp [mapDelete, hk, mapGet, ih]

theorem mem_mapReplace {α : Type} {m : List (String × α)} {k : String} {v : α}
    {e : String × α} (h : e ∈ mapReplace m k v) : e ∈ m ∨ e = (k, v) := by
  induction m with
  | nil => simp [mapReplace] at h
  | cons f rest ih =>
    by_cases hk : f.1 = k
    · rw [mapReplace, if_pos hk] at h
      rcases List.mem_cons.mp h with h | h
      · right; exact h
      · left; exact List.mem_cons_of_mem _ h
    · rw [mapReplace, if_neg hk] at h
      rcases List.mem_cons.mp h with h | h
      · left; exact h ▸ List.mem_cons_self _ _
      · rcases ih h with h | h
        · left; exact List.mem_cons_of_mem _ h
        · right; exact h

theorem mem_mapSet {α : Type} {m : List (String × α)} {k : String} {v : α}
    {e : String × α} (h : e ∈ mapSet m k v) : e ∈ m ∨ e = (k, v) := by
  unfold mapSet at h
  by_cases hc : mapContains m k = true
  · rw [if_pos hc] at h; exact mem_mapReplace h
  · rw [if_neg hc] at h
    rcases List.mem_append.mp h with h | h
    · left; exact h
    · right; simpa using h

theorem mapGet_mem {α : Type} {m : List (String × α)} {k : String} {v : α}
    (h : mapGet m k = some v) : (k, v) ∈ m := by
  induction m with
  | nil => simp [mapGet] at h
  | cons e rest ih =>
    by_cases hk : e.1 = k
    · rw [mapGet, if_pos hk] at h
      have : e = (k, v) := Prod.ext hk (by simpa using h)
      exact this ▸ List.mem_cons_self _ _
    · rw [mapGet, if_neg hk] at h
      exact List.mem_cons_of_mem _ (ih h)

/- ------------------------------------------------------------------ -/
/- C3: range of stored quotes                                         -/
/- ------------------------------------------------------------------ -/

theorem quoteOk_none : quoteOk none := trivial

theorem updateOrderBook_preserves_quotes (s : MarketStore) (now : ℤ)
    (u : OrderBookUpdate) (hs : storeQuotesOk s) (hu : goodUpdate u) :
    storeQuotesOk (updateOrderBook s now u) := by
  intro e he
  simp only [updateOrderBook] at he
  rcases mem_mapSet he with h | h
  · exact hs e h
  · subst h
    rcases hu with ⟨hub, hua⟩
    rcases hmg : mapGet s.markets (jsOrS u.marketId (jsOrS u.conditionId u.assetId)) with _ | m
    · cases hoc : u.outcome <;>
        simp only [marketQuotesOk, createEmptyPrices, hub, hua, quoteOk_none,
          and_self, and_true, true_and, ite_true, ite_false, Bool.false_eq_true,
          eq_self_iff_true]
    · have hm : marketQuotesOk m := hs _ (mapGet_mem hmg)
      rcases hm with ⟨h1, h2, h3, h4⟩
      cases hoc : u.outcome <;>
        simp only [marketQuotesOk, hub, hua, h1, h2, h3, h4, and_self, and_true,
          true_and, ite_true, ite_false, Bool.false_eq_true, eq_self_iff_true]

theorem applyUpdates_preserves_quotes (updates : List (ℤ × OrderBookUpdate)) :
    ∀ s : MarketStore, storeQuotesOk s → (∀ p ∈ updates, goodUpdate p.2) →
      storeQuotesOk (applyUpdates s updates) := by
  induction updates with
  | nil => intro s hs _; exact hs
  | cons p rest ih =>
    intro s hs hgood
    have h1 : storeQuotesOk (updateOrderBook s p.1 p.2) :=
      updateOrderBook_preserves_quotes s p.1 p.2 hs
        (hgood p (List.mem_cons_self _ _))
    exact ih _ h1 (fun q hq => hgood q (List.mem_cons_of_mem _ hq))

/-- C3 (amended): after any sequence of `updateOrderBook` calls in which every
parsable top-of-book price lies in (0,1], every stored quote field of every
market is either null or a number in (0,1].  (The unconditional claim is
false: the store does no range validation — see the counterexample.) -/
theorem quotes_in_range_of_good_updates (staleThresholdMs : ℤ)
    (updates : List (ℤ × OrderBookUpdate))
    (hgood : ∀ p ∈ updates, goodUpdate p.2) :
    storeQuotesOk (applyUpdates (emptyStore staleThresholdMs) updates) :=
  applyUpdates_preserves_quotes updates (emptyStore staleThresholdMs)
    (fun _ h => absurd h (List.not_mem_nil _)) hgood

/-- An order-book update whose top bid parses to 2 — outside (0,1]. -/
def badRangeUpdate : OrderBookUpdate :=
  { marketId := "m1", conditionId := "c1", assetId := "a1", outcome := true,
    bids := [{ price := some 2 }], asks := [], timestamp := 0 }

/-- C3 (counterexample): one `updateOrderBook` call whose top-of-book bid
parses to 2 stores `yesPrices.bid = 2`, violating the claimed (0,1] range —
the store performs no validation on parsed prices. -/
theorem claim_C3_counterexample :
    ¬ storeQuotesOk (applyUpdates (emptyStore 30000) [(0, badRangeUpdate)]) := by
  with_unfolding_all decide

/-- C3 witness: a concrete in-range update sequence satisfies the invariant,
with the hypotheses of `quotes_in_range_of_good_updates` discharged by
`decide`. -/
theorem quotes_in_range_of_good_updates_witness :
    storeQuotesOk (applyUpdates (emptyStore 30000)
      [(5, { marketId := "m1", conditionId := "c1", assetId := "a1",
             outcome := true, bids := [{ price := some (2/5) }],
             asks := [{ price := some (1/2) }], timestamp := 5 })]) :=
  quotes_in_range_of_good_updates 30000 _ (by with_unfolding_all decide)

/- ------------------------------------------------------------------ -/
/- C5: detectArbitrage                                                -/
/- ------------------------------------------------------------------ -/

/-- C5: `detectArbitrage` returns an opportunity iff both asks are present
and strictly positive, their sum is below 1 − feeBuffer − safetyMargin, and
1 − (yesAsk + noAsk) − feeBuffer is at least minProfitThreshold; the returned
opportunity carries totalCost = yesAsk + noAsk, profitMargin = 1 − totalCost
and profitAfterFees = profitMargin − feeBuffer. -/
theorem detectArbitrage_spec (cfg : ArbitrageConfig) (m : MarketData) (now : ℤ) :
    ((detectArbitrage cfg m now).isSome ↔
      ∃ yesAsk noAsk, m.yesPrices.ask = some yesAsk ∧ m.noPrices.ask = some noAsk ∧
        0 < yesAsk ∧ 0 < noAsk ∧
        yesAsk + noAsk < 1 - cfg.feeBuffer - cfg.safetyMargin ∧
        cfg.minProfitThreshold ≤ 1 - (yesAsk + noAsk) - cfg.feeBuffer) ∧
    ∀ opp, detectArbitrage cfg m now = some opp →
      m.yesPrices.ask = some opp.yesAsk ∧ m.noPrices.ask = some opp.noAsk ∧
      opp.totalCost = opp.yesAsk + opp.noAsk ∧
      opp.profitMargin = 1 - opp.totalCost ∧
      opp.profitAfterFees = opp.profitMargin - cfg.feeBuffer := by
  unfold detectArbitrage
  rcases hy : m.yesPrices.ask with _ | ya
  · simp
  · rcases hn : m.noPrices.ask with _ | na
    · simp
    · dsimp only
      constructor
      · split_ifs with h1 h2 h3
        · simp only [Option.isSome_none, Bool.false_eq_true, false_iff]
          rintro ⟨a, b, ha, hb, hpa, hpb, -, -⟩
          rw [Option.some_inj] at ha hb
          subst ha; subst hb
          rcases h1 with h | h
          · exact absurd hpa (not_lt.mpr h)
          · exact absurd hpb (not_lt.mpr h)
        · simp only [Option.isSome_none, Bool.false_eq_true, false_iff]
          rintro ⟨a, b, ha, hb, -, -, hsum, -⟩
          rw [Option.some_inj] at ha hb
          subst ha; subst hb
          exact absurd hsum (not_lt.mpr h2)
        · simp only [Option.isSome_none, Bool.false_eq_true, false_iff]
          rintro ⟨a, b, ha, hb, -, -, -, hthr⟩
          rw [Option.some_inj] at ha hb
          subst ha; subst hb
          have : 1 - (ya + na) - cfg.feeBuffer < cfg.minProfitThreshold := by
            linarith [h3]
          exact absurd hthr (not_le.mpr this)
        · simp only [Option.isSome_some, true_iff]
          push_neg at h1
          refine ⟨ya, na, rfl, rfl, h1.1, h1.2, not_le.mp h2, ?_⟩
          have := not_lt.mp h3
          linarith
      · intro opp h
        split_ifs at h with h1 h2 h3
        rw [Option.some_inj] at h
        subst h
        exact ⟨rfl, rfl, rfl, rfl, rfl⟩

/-- The spec's detection-scenario market: yesAsk 0.45, noAsk 0.50. -/
def scenarioMarket : MarketData :=
  { marketId := "m1", conditionId := "c1",
    yesPrices := { bid := none, ask := some (9/20), lastUpdate := 0 },
    noPrices := { bid := none, ask := some (1/2), lastUpdate := 0 },
    lastUpdate := 0, isStale := false }

/-- The spec's scenario configuration: minProfitThreshold 0.01,
feeBuffer 0.02, safetyMargin 0.005, maxPositionSize 100. -/
def scenarioConfig : ArbitrageConfig :=
  { minProfitThreshold := 1/100, feeBuffer := 1/50, safetyMargin := 1/200,
    maxPositionSize := 100 }

/-- C5 witness: on the spec's scenario (yesAsk 0.45, noAsk 0.50, feeBuffer
0.02, safetyMargin 0.005, minProfitThreshold 0.01) the opportunity is found
with totalCost 0.95, profitMargin 0.05 and profitAfterFees 0.03. -/
theorem detectArbitrage_spec_witness :
    (∀ opp, detectArbitrage scenarioConfig scenarioMarket 0 = some opp →
      scenarioMarket.yesPrices.ask = some opp.yesAsk ∧
      scenarioMarket.noPrices.ask = some opp.noAsk ∧
      opp.totalCost = opp.yesAsk + opp.noAsk ∧
      opp.profitMargin = 1 - opp.totalCost ∧
      opp.profitAfterFees = opp.profitMargin - scenarioConfig.feeBuffer) ∧
    (detectArbitrage scenarioConfig scenarioMarket 0).isSome ∧
    (detectArbitrage scenarioConfig scenarioMarket 0).map
      (fun o => (o.totalCost, o.profitMargin, o.profitAfterFees)) =
      some (19/20, 1/20, 3/100) :=
  ⟨(detectArbitrage_spec scenarioConfig scenarioMarket 0).2,
   by with_unfolding_all decide, by with_unfolding_all decide⟩

/- ------------------------------------------------------------------ -/
/- C1: createExecutionPlan                                            -/
/- ------------------------------------------------------------------ -/

/-- C1 (amended): for an opportunity whose market is present with both live
asks non-null, `createExecutionPlan` returns a plan iff the current profit
1 − (currentYesAsk + currentNoAsk) − feeBuffer − safetyMargin (NOT the
detection-style profit, which omits the safety margin) is at least
minProfitThreshold; the plan's total size is
min(maxPositionSize, maxPositionSize·profitAfterFees/minProfitThreshold),
split 50/50, at the current live asks. -/
theorem createExecutionPlan_spec (cfg : ArbitrageConfig) (store : MarketStore)
    (now : ℤ) (opp : ArbitrageOpportunity) (m : MarketData) (ya na : ℚ)
    (hm : getMarket store now opp.marketId = some m)
    (hy : m.yesPrices.ask = some ya) (hn : m.noPrices.ask = some na) :
    ((createExecutionPlan cfg store now opp).isSome ↔
      cfg.minProfitThreshold ≤ 1 - (ya + na) - cfg.feeBuffer - cfg.safetyMargin) ∧
    ∀ plan, createExecutionPlan cfg store now opp = some plan →
      plan.totalCost = min cfg.maxPositionSize
        (cfg.maxPositionSize * opp.profitAfterFees / cfg.minProfitThreshold) ∧
      plan.yesSize = plan.totalCost / 2 ∧
      plan.noSize = plan.totalCost / 2 ∧
      plan.yesPrice = ya ∧ plan.noPrice = na := by
  unfold createExecutionPlan
  rw [hm]
  dsimp only
  rw [hy, hn]
  dsimp only
  constructor
  · split_ifs with h1
    · simp only [Option.isSome_none, Bool.false_eq_true, false_iff, not_le]
      linarith
    · simp only [Option.isSome_some, true_iff]
      have := not_lt.mp h1
      linarith
  · intro plan h
    split_ifs at h with h1
    rw [Option.some_inj] at h
    subst h
    refine ⟨by ring, by ring, by ring, rfl, rfl⟩

/-- The market of the C1 counterexample: live asks 0.48 and 0.49. -/
def staleMarginMarket : MarketData :=
  { marketId := "m1", conditionId := "c1",
    yesPrices := { bid := none, ask := some (12/25), lastUpdate := 0 },
    noPrices := { bid := none, ask := some (49/100), lastUpdate := 0 },
    lastUpdate := 0, isStale := false }

/-- The store of the C1 counterexample. -/
def staleMarginStore : MarketStore :=
  { markets := [("m1", staleMarginMarket)], staleThresholdMs := 30000 }

/-- An opportunity on that market (profitAfterFees 0.01, the minimum). -/
def staleMarginOpp : ArbitrageOpportunity :=
  { marketId := "m1", conditionId := "c1", yesAsk := 12/25, noAsk := 49/100,
    totalCost := 97/100, profitMargin := 3/100, profitAfterFees := 1/100,
    marketData := staleMarginMarket, timestamp := 0 }

/-- C1 (counterexample): with live asks 0.48/0.49, feeBuffer 0.02,
safetyMargin 0.005 and minProfitThreshold 0.01, the detection-style current
profit 1 − 0.97 − 0.02 = 0.01 meets the threshold, so the claim requires a
non-null plan — but `createExecutionPlan` subtracts the safety margin as
well (0.005 < 0.01) and returns null. -/
theorem claim_C1_counterexample :
    getMarket staleMarginStore 0 "m1" = some staleMarginMarket ∧
    staleMarginMarket.yesPrices.ask = some (12/25) ∧
    staleMarginMarket.noPrices.ask = some (49/100) ∧
    scenarioConfig.minProfitThreshold ≤
      1 - (12/25 + 49/100) - scenarioConfig.feeBuffer ∧
    createExecutionPlan scenarioConfig staleMarginStore 0 staleMarginOpp = none := by
  with_unfolding_all decide

/-- The store of the C1 witness (the scenario market, live). -/
def scenarioStore : MarketStore :=
  { markets := [("m1", scenarioMarket)], staleThresholdMs := 30000 }

/-- The opportunity detected on the scenario market. -/
def scenarioOpp : ArbitrageOpportunity :=
  { marketId := "m1", conditionId := "c1", yesAsk := 9/20, noAsk := 1/2,
    totalCost := 19/20, profitMargin := 1/20, profitAfterFees := 3/100,
    marketData := scenarioMarket, timestamp := 0 }

/-- C1 witness: on the scenario store (asks 0.45/0.50) the margined current
profit 0.025 meets the 0.01 threshold, and the theorem's hypotheses hold at
the concrete input. -/
theorem createExecutionPlan_spec_witness :
    getMarket scenarioStore 0 "m1" = some scenarioMarket ∧
    scenarioMarket.yesPrices.ask = some (9/20) ∧
    scenarioMarket.noPrices.ask = some (1/2) ∧
    (((createExecutionPlan scenarioConfig scenarioStore 0 scenarioOpp).isSome ↔
      scenarioConfig.minProfitThreshold ≤
        1 - (9/20 + 1/2) - scenarioConfig.feeBuffer - scenarioConfig.safetyMargin) ∧
    ∀ plan, createExecutionPlan scenarioConfig scenarioStore 0 scenarioOpp = some plan →
      plan.totalCost = min scenarioConfig.maxPositionSize
        (scenarioConfig.maxPositionSize * scenarioOpp.profitAfterFees /
          scenarioConfig.minProfitThreshold) ∧
      plan.yesSize = plan.totalCost / 2 ∧
      plan.noSize = plan.totalCost / 2 ∧
      plan.yesPrice = 9/20 ∧ plan.noPrice = 1/2) :=
  ⟨by with_unfolding_all decide, by with_unfolding_all decide,
   by with_unfolding_all decide,
   createExecutionPlan_spec scenarioConfig scenarioStore 0 scenarioOpp
     scenarioMarket (9/20) (1/2) (by with_unfolding_all decide)
     (by with_unfolding_all decide) (by with_unfolding_all decide)⟩

/- ------------------------------------------------------------------ -/
/- Execution-engine lemmas                                            -/
/- ------------------------------------------------------------------ -/

theorem updatePositionPnL_yesTokens (store : MarketStore) (now : ℤ) (p : Position) :
    (updatePositionPnL store now p).yesTokens = p.yesTokens := by
  unfold updatePositionPnL
  rcases getMarket store now p.marketId with _ | m <;> simp

theorem updatePositionPnL_noTokens (store : MarketStore) (now : ℤ) (p : Position) :
    (updatePositionPnL store now p).noTokens = p.noTokens := by
  unfold updatePositionPnL
  rcases getMarket store now p.marketId with _ | m <;> simp

theorem updatePositionPnL_yesEntryPrice (store : MarketStore) (now : ℤ) (p : Position) :
    (updatePositionPnL store now p).yesEntryPrice = p.yesEntryPrice := by
  unfold updatePositionPnL
  rcases getMarket store now p.marketId with _ | m <;> simp

theorem updatePositionPnL_noEntryPrice (store : MarketStore) (now : ℤ) (p : Position) :
    (updatePositionPnL store now p).noEntryPrice = p.noEntryPrice := by
  unfold updatePositionPnL
  rcases getMarket store now p.marketId with _ | m <;> simp

theorem resolvedFillPrice_eq_none_iff (store : MarketStore) (now : ℤ)
    (order : TradeOrder) :
    resolvedFillPrice store now order = none ↔
      jsTruthyPrice order.price = none ∧
        getMarket store now order.marketId = none := by
  unfold resolvedFillPrice
  rcases h : jsTruthyPrice order.price with _ | p
  · rcases h2 : getMarket store now order.marketId with _ | m <;> simp
  · simp

/-- The claim-C6 rejection condition: no (truthy) explicit price and no
market data, or a resolved fill price outside (0,1], or a BUY without
sufficient balance. -/
def rejectionCondition (store : MarketStore) (now : ℤ) (st : EngineState)
    (order : TradeOrder) : Prop :=
  (jsTruthyPrice order.price = none ∧ getMarket store now order.marketId = none) ∨
  (∃ fp, resolvedFillPrice store now order = some fp ∧ (fp ≤ 0 ∨ 1 < fp)) ∨
  (order.action = .buy ∧ st.currentBalance < order.size)

/- ------------------------------------------------------------------ -/
/- C6: executeTrade rejection taxonomy                                -/
/- ------------------------------------------------------------------ -/

/-- C6: a paper order never throws — `executeTrade` returns a result whose
status is `rejected` exactly when the order has no (truthy) explicit price
and no market data exists, the resolved fill price lies outside (0,1], or a
BUY exceeds the balance; rejection leaves the engine state entirely
unchanged, and in every other case the order fills. -/
theorem executeTrade_reject_iff (store : MarketStore) (now : ℤ)
    (st : EngineState) (order : TradeOrder)
    (hmode : order.mode = ExecutionMode.paper) :
    ∃ r st2, executeTrade store now st order = Except.ok (r, st2) ∧
      ((r.status = OrderStatus.rejected) ↔ rejectionCondition store now st order) ∧
      (r.status = OrderStatus.rejected → st2 = st) ∧
      (¬ rejectionCondition store now st order → r.status = OrderStatus.filled) := by
  have hmode2 : ¬ (order.mode ≠ ExecutionMode.paper) := by simp [hmode]
  unfold executeTrade
  rw [if_neg hmode2]
  rcases hres : resolvedFillPrice store now order with _ | fp
  · refine ⟨_, _, rfl, ?_, fun _ => rfl, ?_⟩
    · simp only [rejectedResult, true_iff]
      left
      exact (resolvedFillPrice_eq_none_iff store now order).mp hres
    · intro hnc
      exact absurd (Or.inl ((resolvedFillPrice_eq_none_iff store now order).mp hres)) hnc
  · dsimp only
    by_cases h1 : fp ≤ 0 ∨ 1 < fp
    · rw [if_pos h1]
      refine ⟨_, _, rfl, ?_, fun _ => rfl, ?_⟩
      · simp only [rejectedResult, true_iff]
        exact Or.inr (Or.inl ⟨fp, hres, h1⟩)
      · intro hnc
        exact absurd (Or.inr (Or.inl ⟨fp, hres, h1⟩)) hnc
    · rw [if_neg h1]
      by_cases h2 : order.action = TradeAction.buy ∧ st.currentBalance < order.size
      · rw [if_pos h2]
        refine ⟨_, _, rfl, ?_, fun _ => rfl, ?_⟩
        · simp only [rejectedResult, true_iff]
          exact Or.inr (Or.inr h2)
        · intro hnc
          exact absurd (Or.inr (Or.inr h2)) hnc
      · rw [if_neg h2]
        refine ⟨_, _, rfl, ?_, ?_, fun _ => rfl⟩
        · constructor
          · intro h
            exact absurd h (by simp [fillOutcome])
          · intro hrc
            rcases hrc with hc1 | ⟨fp2, he, hbad⟩ | hc3
            · rw [(resolvedFillPrice_eq_none_iff store now order).mpr hc1] at hres
              exact absurd hres (by simp)
            · rw [hres] at he
              rw [Option.some_inj] at he
              subst he
              exact absurd hbad h1
            · exact absurd hc3 h2
        · intro h
          exact absurd h (by simp [fillOutcome])

/-- A fresh paper engine with $1000 of capital. -/
def freshEngine : EngineState :=
  { positions := [], tradeHistory := [], currentBalance := 1000,
    realizedPnL := 0, startingCapital := 1000 }

/-- A market BUY order (no explicit price) on a market with no data. -/
def noDataBuyOrder : TradeOrder :=
  { orderId := "o2", marketId := "mX", conditionId := "cX", side := .yes,
    action := .buy, size := 10, price := none, mode := .paper, timestamp := 0 }

/-- C6 witness: the theorem instantiated at a concrete market BUY on an
empty store, its mode hypothesis discharged definitionally. -/
theorem executeTrade_reject_iff_witness :
    noDataBuyOrder.mode = ExecutionMode.paper ∧
    ∃ r st2, executeTrade (emptyStore 30000) 0 freshEngine noDataBuyOrder =
        Except.ok (r, st2) ∧
      ((r.status = OrderStatus.rejected) ↔
        rejectionCondition (emptyStore 30000) 0 freshEngine noDataBuyOrder) ∧
      (r.status = OrderStatus.rejected → st2 = freshEngine) ∧
      (¬ rejectionCondition (emptyStore 30000) 0 freshEngine noDataBuyOrder →
        r.status = OrderStatus.filled) :=
  ⟨rfl, executeTrade_reject_iff (emptyStore 30000) 0 freshEngine noDataBuyOrder rfl⟩

/- ------------------------------------------------------------------ -/
/- C2: SELL with zero tokens                                          -/
/- ------------------------------------------------------------------ -/

/-- A paper SELL of $10 of YES at explicit price 0.5 on a market with no
position. -/
def zeroTokenSell : TradeOrder :=
  { orderId := "o1", marketId := "m1", conditionId := "c1", side := .yes,
    action := .sell, size := 10, price := some (1/2), mode := .paper,
    timestamp := 0 }

/-- C2 (counterexample): a paper SELL on an outcome holding zero tokens is
NOT rejected — on a fresh engine it fills, the balance is credited
1000 → 1010, a TradeRecord is appended, and a position clamped at zero
tokens is created.  `executeTrade` performs no token-sufficiency check. -/
theorem claim_C2_counterexample :
    (executeTrade (emptyStore 30000) 0 freshEngine zeroTokenSell).toOption.map
      (fun p => (p.1.status, p.2.currentBalance, p.2.tradeHistory.length,
        (mapGet p.2.positions "m1").map (fun q => (q.yesTokens, q.yesEntryPrice)))) =
      some (OrderStatus.filled, 1010, 1, some ((0 : ℚ), (0 : ℚ))) := by
  with_unfolding_all decide

/-- C2 (amended): a paper SELL with a (truthy) explicit price in (0,1] on an
outcome whose current position holds zero tokens is filled, not rejected:
the balance is credited with order.size, one TradeRecord is appended
(capped), and the position's token count for that outcome is clamped at
zero with entry price reset to 0. -/
theorem executeTrade_sell_zero_tokens (store : MarketStore) (now : ℤ)
    (st : EngineState) (order : TradeOrder) (p : ℚ)
    (hmode : order.mode = ExecutionMode.paper)
    (haction : order.action = TradeAction.sell)
    (hprice : order.price = some p) (hp0 : 0 < p) (hp1 : p ≤ 1)
    (hsize : 0 ≤ order.size)
    (hpos : ∀ pos, mapGet st.positions order.marketId = some pos →
      (if order.side = TradeSide.yes then pos.yesTokens else pos.noTokens) = 0) :
    ∃ r st2, executeTrade store now st order = Except.ok (r, st2) ∧
      r.status = OrderStatus.filled ∧
      st2.currentBalance = st.currentBalance + order.size ∧
      st2.tradeHistory = trimHistory (st.tradeHistory ++ [tradeRecordOf order p now]) ∧
      ∃ pos2, mapGet st2.positions order.marketId = some pos2 ∧
        (if order.side = TradeSide.yes then
          pos2.yesTokens = 0 ∧ pos2.yesEntryPrice = 0
         else pos2.noTokens = 0 ∧ pos2.noEntryPrice = 0) := by
  have hp0ne : p ≠ 0 := ne_of_gt hp0
  have hres : resolvedFillPrice store now order = some p := by
    unfold resolvedFillPrice jsTruthyPrice
    rw [hprice]
    simp [hp0ne]
  have hmode2 : ¬ (order.mode ≠ ExecutionMode.paper) := by simp [hmode]
  have hrange : ¬ (p ≤ 0 ∨ 1 < p) := by
    push_neg
    exact ⟨hp0, hp1⟩
  have hbuy : ¬ (order.action = TradeAction.buy ∧ st.currentBalance < order.size) := by
    rintro ⟨hb, -⟩
    rw [haction] at hb
    exact absurd hb (by simp)
  unfold executeTrade
  rw [if_neg hmode2, hres]
  dsimp only
  rw [if_neg hrange, if_neg hbuy]
  have htok : 0 ≤ order.size / p := div_nonneg hsize (le_of_lt hp0)
  refine ⟨_, _, rfl, rfl, ?_, ?_, ?_⟩
  · simp only [fillOutcome, updatePosition, positionOrNew, haction]
    simp
  · simp only [fillOutcome, updatePosition, positionOrNew, haction]
  · simp only [fillOutcome, updatePosition, positionOrNew, haction]
    refine ⟨_, mapGet_mapSet_self _ _ _, ?_⟩
    rcases hside : order.side with _ | _ <;>
      rcases hmg : mapGet st.positions order.marketId with _ | pos <;>
        simp only [hside, hmg]
    · simp [htok, updatePositionPnL_yesTokens, updatePositionPnL_yesEntryPrice]
    · have h0 : pos.yesTokens = 0 := by
        have h := hpos pos hmg
        rw [hside] at h
        simpa using h
      simp [h0, htok, updatePositionPnL_yesTokens, updatePositionPnL_yesEntryPrice]
    · simp [htok, updatePositionPnL_noTokens, updatePositionPnL_noEntryPrice]
    · have h0 : pos.noTokens = 0 := by
        have h := hpos pos hmg
        rw [hside] at h
        simpa using h
      simp [h0, htok, updatePositionPnL_noTokens, updatePositionPnL_noEntryPrice]

/-- C2 witness: the amended theorem instantiated at the concrete zero-token
SELL on a fresh engine, every hypothesis discharged at the input. -/
theorem executeTrade_sell_zero_tokens_witness :
    zeroTokenSell.mode = ExecutionMode.paper ∧
    zeroTokenSell.action = TradeAction.sell ∧
    zeroTokenSell.price = some (1/2) ∧
    (0 : ℚ) < 1/2 ∧ (1/2 : ℚ) ≤ 1 ∧ 0 ≤ zeroTokenSell.size ∧
    ∃ r st2, executeTrade (emptyStore 30000) 0 freshEngine zeroTokenSell =
        Except.ok (r, st2) ∧
      r.status = OrderStatus.filled ∧
      st2.currentBalance = freshEngine.currentBalance + zeroTokenSell.size ∧
      st2.tradeHistory =
        trimHistory (freshEngine.tradeHistory ++ [tradeRecordOf zeroTokenSell (1/2) 0]) ∧
      ∃ pos2, mapGet st2.positions zeroTokenSell.marketId = some pos2 ∧
        (if zeroTokenSell.side = TradeSide.yes then
          pos2.yesTokens = 0 ∧ pos2.yesEntryPrice = 0
         else pos2.noTokens = 0 ∧ pos2.noEntryPrice = 0) :=
  ⟨rfl, rfl, rfl, by norm_num, by norm_num, by norm_num [zeroTokenSell],
   executeTrade_sell_zero_tokens (emptyStore 30000) 0 freshEngine zeroTokenSell
     (1/2) rfl rfl rfl (by norm_num) (by norm_num) (by norm_num [zeroTokenSell])
     (fun pos h => by simp [freshEngine, mapGet] at h)⟩

/- ------------------------------------------------------------------ -/
/- C7: redeemPosition                                                 -/
/- ------------------------------------------------------------------ -/

/-- C7: for an existing position, `redeemPosition` credits the balance with
the winning side's tokens times $1, adds to realizedPnL the sum over both
legs of tokens·(settlementValue − entryPrice) (settlement $1 for the winner,
$0 for the loser), appends one synthetic TradeRecord and deletes the
position. -/
theorem redeemPosition_spec (st : EngineState) (now : ℤ) (marketId : String)
    (w : Fin 2) (pos : Position)
    (hpos : mapGet st.positions marketId = some pos) :
    (redeemPosition st now marketId w).currentBalance
      = st.currentBalance + (if w = 0 then pos.yesTokens else pos.noTokens) * 1 ∧
    (redeemPosition st now marketId w).realizedPnL
      = st.realizedPnL
        + (if w = 0 then
            pos.yesTokens * (1 - pos.yesEntryPrice) + pos.noTokens * (0 - pos.noEntryPrice)
          else
            pos.noTokens * (1 - pos.noEntryPrice) + pos.yesTokens * (0 - pos.yesEntryPrice)) ∧
    mapGet (redeemPosition st now marketId w).positions marketId = none ∧
    (redeemPosition st now marketId w).tradeHistory
      = trimHistory (st.tradeHistory ++
          [{ orderId := "", marketId := marketId, conditionId := pos.conditionId,
             side := if w = 0 then TradeSide.yes else TradeSide.no,
             action := TradeAction.sell,
             size := (if w = 0 then pos.yesTokens else pos.noTokens) * 1,
             price := 1, status := OrderStatus.filled, timestamp := now,
             mode := ExecutionMode.paper }]) := by
  unfold redeemPosition
  rw [hpos]
  by_cases hw : w = 0 <;>
    simp [hw, jsOrQ_zero, mapGet_mapDelete_self]

/-- The spec's redemption-scenario position: 10 YES tokens at entry 0.4 and
5 NO tokens at entry 0.5. -/
def settledPos : Position :=
  { marketId := "m1", conditionId := "c1", yesTokens := 10, noTokens := 5,
    yesEntryPrice := 2/5, noEntryPrice := 1/2, yesCurrentPrice := none,
    noCurrentPrice := none, entryTimestamp := 0, lastUpdate := 0,
    unrealizedPnL := 0, totalEntryCost := 13/2 }

/-- An engine holding the redemption-scenario position with $100 cash. -/
def settledEngine : EngineState :=
  { positions := [("m1", settledPos)], tradeHistory := [],
    currentBalance := 100, realizedPnL := 0, startingCapital := 100 }

/-- C7 witness: the spec scenario — YES wins, settlement proceeds are 10.0
(balance 100 → 110) and the realized PnL contribution is
10·(1−0.4) + 5·(0−0.5) = 3.5. -/
theorem redeemPosition_spec_witness :
    mapGet settledEngine.positions "m1" = some settledPos ∧
    ((redeemPosition settledEngine 0 "m1" 0).currentBalance
      = settledEngine.currentBalance
        + (if (0 : Fin 2) = 0 then settledPos.yesTokens else settledPos.noTokens) * 1 ∧
    (redeemPosition settledEngine 0 "m1" 0).realizedPnL
      = settledEngine.realizedPnL
        + (if (0 : Fin 2) = 0 then
            settledPos.yesTokens * (1 - settledPos.yesEntryPrice)
              + settledPos.noTokens * (0 - settledPos.noEntryPrice)
          else
            settledPos.noTokens * (1 - settledPos.noEntryPrice)
              + settledPos.yesTokens * (0 - settledPos.yesEntryPrice)) ∧
    mapGet (redeemPosition settledEngine 0 "m1" 0).positions "m1" = none ∧
    (redeemPosition settledEngine 0 "m1" 0).tradeHistory
      = trimHistory (settledEngine.tradeHistory ++
          [{ orderId := "", marketId := "m1", conditionId := settledPos.conditionId,
             side := if (0 : Fin 2) = 0 then TradeSide.yes else TradeSide.no,
             action := TradeAction.sell,
             size := (if (0 : Fin 2) = 0 then settledPos.yesTokens else settledPos.noTokens) * 1,
             price := 1, status := OrderStatus.filled, timestamp := 0,
             mode := ExecutionMode.paper }])) ∧
    (redeemPosition settledEngine 0 "m1" 0).currentBalance = 110 ∧
    (redeemPosition settledEngine 0 "m1" 0).realizedPnL = 7/2 :=
  ⟨by with_unfolding_all decide,
   redeemPosition_spec settledEngine 0 "m1" 0 settledPos
     (by with_unfolding_all decide),
   by with_unfolding_all decide, by with_unfolding_all decide⟩

/- ------------------------------------------------------------------ -/
/- C9: weighted-average entry price                                   -/
/- ------------------------------------------------------------------ -/

/-- When the resolved fill price is valid and a BUY is covered by the
balance, `executeTrade` takes the success path. -/
theorem executeTrade_fill_eq (store : MarketStore) (now : ℤ) (st : EngineState)
    (order : TradeOrder) (fp : ℚ)
    (hmode : order.mode = ExecutionMode.paper)
    (hres : resolvedFillPrice store now order = some fp)
    (hrange : ¬ (fp ≤ 0 ∨ 1 < fp))
    (hbal : ¬ (order.action = TradeAction.buy ∧ st.currentBalance < order.size)) :
    executeTrade store now st order = Except.ok (fillOutcome store now st order fp) := by
  have hmode2 : ¬ (order.mode ≠ ExecutionMode.paper) := by simp [hmode]
  unfold executeTrade
  rw [if_neg hmode2, hres]
  dsimp only
  rw [if_neg hrange, if_neg hbal]

/-- Inversion: a filled result comes from the success path at the resolved
fill price. -/
theorem executeTrade_ok_filled_inv (store : MarketStore) (now : ℤ)
    (st : EngineState) (order : TradeOrder) (r : FillResult) (st2 : EngineState)
    (hexec : executeTrade store now st order = Except.ok (r, st2))
    (hfil : r.status = OrderStatus.filled) :
    ∃ fp, resolvedFillPrice store now order = some fp ∧
      r = (fillOutcome store now st order fp).1 ∧
      st2 = (fillOutcome store now st order fp).2 := by
  unfold executeTrade at hexec
  by_cases hmode2 : order.mode ≠ ExecutionMode.paper
  · rw [if_pos hmode2] at hexec
    cases hexec
  · rw [if_neg hmode2] at hexec
    rcases hres : resolvedFillPrice store now order with _ | fp <;> rw [hres] at hexec <;>
      dsimp only at hexec
    · rw [Except.ok.injEq, Prod.mk.injEq] at hexec
      rw [← hexec.1] at hfil
      exact absurd hfil (by simp [rejectedResult])
    · split_ifs at hexec with h1 h2
      · rw [Except.ok.injEq, Prod.mk.injEq] at hexec
        rw [← hexec.1] at hfil
        exact absurd hfil (by simp [rejectedResult])
      · rw [Except.ok.injEq, Prod.mk.injEq] at hexec
        rw [← hexec.1] at hfil
        exact absurd hfil (by simp [rejectedResult])
      · rw [Except.ok.injEq, Prod.mk.injEq] at hexec
        exact ⟨fp, rfl, hexec.1.symm, hexec.2.symm⟩

theorem positionOrNew_of_none (st : EngineState) (order : TradeOrder) (now : ℤ)
    (h : mapGet st.positions order.marketId = none) :
    positionOrNew st order now =
      { marketId := order.marketId, conditionId := order.conditionId,
        yesTokens := 0, noTokens := 0, yesEntryPrice := 0, noEntryPrice := 0,
        yesCurrentPrice := none, noCurrentPrice := none,
        entryTimestamp := now, lastUpdate := now, unrealizedPnL := 0,
        totalEntryCost := 0 } := by
  unfold positionOrNew
  rw [h]

theorem positionOrNew_of_some (st : EngineState) (order : TradeOrder) (now : ℤ)
    (pos : Position) (h : mapGet st.positions order.marketId = some pos) :
    positionOrNew st order now = pos := by
  unfold positionOrNew
  rw [h]

/-- The position written by a successful BUY: the bought side gains
`size/fillPrice` tokens and takes the source's weighted-average entry price;
the other side is untouched. -/
theorem fillOutcome_buy_fields (store : MarketStore) (now : ℤ) (st : EngineState)
    (order : TradeOrder) (fp : ℚ) (haction : order.action = TradeAction.buy) :
    (fillOutcome store now st order fp).1.status = OrderStatus.filled ∧
    (fillOutcome store now st order fp).1.averagePrice = fp ∧
    (fillOutcome store now st order fp).2.currentBalance = st.currentBalance - order.size ∧
    ∃ pos2, mapGet (fillOutcome store now st order fp).2.positions order.marketId = some pos2 ∧
      (order.side = TradeSide.yes →
        pos2.yesTokens = (positionOrNew st order now).yesTokens + order.size / fp ∧
        pos2.yesEntryPrice
          = ((positionOrNew st order now).yesTokens * (positionOrNew st order now).yesEntryPrice + order.size)
            / ((positionOrNew st order now).yesTokens + order.size / fp) ∧
        pos2.noTokens = (positionOrNew st order now).noTokens ∧
        pos2.noEntryPrice = (positionOrNew st order now).noEntryPrice) ∧
      (order.side = TradeSide.no →
        pos2.noTokens = (positionOrNew st order now).noTokens + order.size / fp ∧
        pos2.noEntryPrice
          = ((positionOrNew st order now).noTokens * (positionOrNew st order now).noEntryPrice + order.size)
            / ((positionOrNew st order now).noTokens + order.size / fp) ∧
        pos2.yesTokens = (positionOrNew st order now).yesTokens ∧
        pos2.yesEntryPrice = (positionOrNew st order now).yesEntryPrice) := by
  refine ⟨rfl, rfl, ?_, ?_⟩
  · simp only [fillOutcome, updatePosition, haction]
    simp
  · simp only [fillOutcome, updatePosition, haction]
    refine ⟨_, mapGet_mapSet_self _ _ _, ?_, ?_⟩
    · intro hside
      simp only [hside]
      simp [positionOrNew, updatePositionPnL_yesTokens, updatePositionPnL_yesEntryPrice,
        updatePositionPnL_noTokens, updatePositionPnL_noEntryPrice]
    · intro hside
      simp only [hside]
      simp [positionOrNew, updatePositionPnL_yesTokens, updatePositionPnL_yesEntryPrice,
        updatePositionPnL_noTokens, updatePositionPnL_noEntryPrice]


/-- A limit BUY order as used by the two-buy scenario of C9. -/
def mkBuyOrder (mId cId : String) (s : TradeSide) (size p : ℚ) : TradeOrder :=
  { orderId := "", marketId := mId, conditionId := cId, side := s,
    action := TradeAction.buy, size := size, price := some p,
    mode := ExecutionMode.paper, timestamp := 0 }

/-- C9: (a) every successful BUY of size S at fill price p on a position
holding oldTokens at entry e updates that side's entry price to
(oldTokens·e + S)/(oldTokens + S/p); (b) consequently two successful buys of
the same outcome at different prices starting from an empty side leave
entry price = total dollars spent / total tokens held (exactly, in ℚ). -/
theorem buy_entry_weighted_avg :
    (∀ (store : MarketStore) (now : ℤ) (st : EngineState) (order : TradeOrder)
       (r : FillResult) (st2 : EngineState) (pos : Position),
      order.action = TradeAction.buy →
      executeTrade store now st order = Except.ok (r, st2) →
      r.status = OrderStatus.filled →
      mapGet st.positions order.marketId = some pos →
      ∃ pos2, mapGet st2.positions order.marketId = some pos2 ∧
        (order.side = TradeSide.yes →
          pos2.yesTokens = pos.yesTokens + order.size / r.averagePrice ∧
          pos2.yesEntryPrice
            = (pos.yesTokens * pos.yesEntryPrice + order.size)
              / (pos.yesTokens + order.size / r.averagePrice)) ∧
        (order.side = TradeSide.no →
          pos2.noTokens = pos.noTokens + order.size / r.averagePrice ∧
          pos2.noEntryPrice
            = (pos.noTokens * pos.noEntryPrice + order.size)
              / (pos.noTokens + order.size / r.averagePrice))) ∧
    (∀ (store : MarketStore) (now : ℤ) (st : EngineState) (mId cId : String)
       (s : TradeSide) (S1 p1 S2 p2 : ℚ),
      mapGet st.positions mId = none →
      0 < p1 → p1 ≤ 1 → 0 < p2 → p2 ≤ 1 → p1 ≠ p2 → 0 < S1 → 0 < S2 →
      S1 ≤ st.currentBalance → S1 + S2 ≤ st.currentBalance →
      ∃ r1 st1 r2 st2,
        executeTrade store now st (mkBuyOrder mId cId s S1 p1) = Except.ok (r1, st1) ∧
        executeTrade store now st1 (mkBuyOrder mId cId s S2 p2) = Except.ok (r2, st2) ∧
        ∃ pos2, mapGet st2.positions mId = some pos2 ∧
          (if s = TradeSide.yes then pos2.yesTokens else pos2.noTokens)
            = S1 / p1 + S2 / p2 ∧
          (if s = TradeSide.yes then pos2.yesEntryPrice else pos2.noEntryPrice)
            = (S1 + S2) / (S1 / p1 + S2 / p2)) := by
  constructor
  · intro store now st order r st2 pos haction hexec hfil hmg
    obtain ⟨fp, hres, hr, hst2⟩ :=
      executeTrade_ok_filled_inv store now st order r st2 hexec hfil
    obtain ⟨-, havg, -, pos2, hpos2, hyes, hno⟩ :=
      fillOutcome_buy_fields store now st order fp haction
    have hpn : positionOrNew st order now = pos := positionOrNew_of_some st order now pos hmg
    have havg2 : r.averagePrice = fp := by rw [hr]; exact havg
    refine ⟨pos2, by rw [hst2]; exact hpos2, ?_, ?_⟩
    · intro hside
      obtain ⟨h1, h2, -, -⟩ := hyes hside
      rw [hpn] at h1 h2
      rw [havg2]
      exact ⟨h1, h2⟩
    · intro hside
      obtain ⟨h1, h2, -, -⟩ := hno hside
      rw [hpn] at h1 h2
      rw [havg2]
      exact ⟨h1, h2⟩
  · intro store now st mId cId s S1 p1 S2 p2 hmg hp1 hp1le hp2 hp2le hne hS1 hS2 hb1 hb2
    have hres1 : resolvedFillPrice store now (mkBuyOrder mId cId s S1 p1) = some p1 := by
      unfold resolvedFillPrice jsTruthyPrice mkBuyOrder
      simp [ne_of_gt hp1]
    have hrange1 : ¬ (p1 ≤ 0 ∨ 1 < p1) := by push_neg; exact ⟨hp1, hp1le⟩
    have hbal1 : ¬ ((mkBuyOrder mId cId s S1 p1).action = TradeAction.buy ∧
        st.currentBalance < (mkBuyOrder mId cId s S1 p1).size) := by
      rintro ⟨-, hlt⟩
      simp only [mkBuyOrder] at hlt
      linarith
    have hexec1 := executeTrade_fill_eq store now st (mkBuyOrder mId cId s S1 p1) p1
      rfl hres1 hrange1 hbal1
    obtain ⟨-, -, hbalA, pos1, hpos1, hyes1, hno1⟩ :=
      fillOutcome_buy_fields store now st (mkBuyOrder mId cId s S1 p1) p1 rfl
    have hpn1 := positionOrNew_of_none st (mkBuyOrder mId cId s S1 p1) now hmg
    set st1 := (fillOutcome store now st (mkBuyOrder mId cId s S1 p1) p1).2 with hst1def
    have hres2 : resolvedFillPrice store now (mkBuyOrder mId cId s S2 p2) = some p2 := by
      unfold resolvedFillPrice jsTruthyPrice mkBuyOrder
      simp [ne_of_gt hp2]
    have hrange2 : ¬ (p2 ≤ 0 ∨ 1 < p2) := by push_neg; exact ⟨hp2, hp2le⟩
    have hbal2 : ¬ ((mkBuyOrder mId cId s S2 p2).action = TradeAction.buy ∧
        st1.currentBalance < (mkBuyOrder mId cId s S2 p2).size) := by
      rintro ⟨-, hlt⟩
      simp only [mkBuyOrder] at hlt
      rw [hbalA] at hlt
      simp only [mkBuyOrder] at hlt
      linarith
    have hexec2 := executeTrade_fill_eq store now st1 (mkBuyOrder mId cId s S2 p2) p2
      rfl hres2 hrange2 hbal2
    obtain ⟨-, -, -, pos2, hpos2, hyes2, hno2⟩ :=
      fillOutcome_buy_fields store now st1 (mkBuyOrder mId cId s S2 p2) p2 rfl
    have hpn2 : positionOrNew st1 (mkBuyOrder mId cId s S2 p2) now = pos1 :=
      positionOrNew_of_some st1 (mkBuyOrder mId cId s S2 p2) now pos1 hpos1
    refine ⟨_, _, _, _, hexec1, hexec2, pos2, hpos2, ?_, ?_⟩
    · rcases hs : s with _ | _
      · obtain ⟨ha1, -, -, -⟩ := hyes1 (by simp [mkBuyOrder, hs])
        obtain ⟨ha2, -, -, -⟩ := hyes2 (by simp [mkBuyOrder, hs])
        rw [hpn1] at ha1
        rw [hpn2, ha1] at ha2
        simp only [mkBuyOrder] at ha1 ha2
        simp [ha2]
      · obtain ⟨ha1, -, -, -⟩ := hno1 (by simp [mkBuyOrder, hs])
        obtain ⟨ha2, -, -, -⟩ := hno2 (by simp [mkBuyOrder, hs])
        rw [hpn1] at ha1
        rw [hpn2, ha1] at ha2
        simp only [mkBuyOrder] at ha1 ha2
        simp [ha2]
    · have hT1 : S1 / p1 ≠ 0 := by
        apply div_ne_zero (ne_of_gt hS1) (ne_of_gt hp1)
      rcases hs : s with _ | _
      · obtain ⟨ha1, he1, -, -⟩ := hyes1 (by simp [mkBuyOrder, hs])
        obtain ⟨-, he2, -, -⟩ := hyes2 (by simp [mkBuyOrder, hs])
        rw [hpn1] at ha1 he1
        rw [hpn2, ha1, he1] at he2
        simp only [mkBuyOrder] at ha1 he1 he2
        simp only [hs, if_true]
        rw [he2]
        have e1 : (0 : ℚ) * 0 + S1 = S1 := by ring
        have e2 : (0 : ℚ) + S1 / p1 = S1 / p1 := by ring
        rw [e1, e2]
        have e3 : S1 / p1 * (S1 / (S1 / p1)) = S1 := by
          field_simp
        rw [e3]
      · obtain ⟨ha1, he1, -, -⟩ := hno1 (by simp [mkBuyOrder, hs])
        obtain ⟨-, he2, -, -⟩ := hno2 (by simp [mkBuyOrder, hs])
        rw [hpn1] at ha1 he1
        rw [hpn2, ha1, he1] at he2
        simp only [mkBuyOrder] at ha1 he1 he2
        rw [if_neg (by simp : ¬ (TradeSide.no = TradeSide.yes))]
        rw [he2]
        have e1 : (0 : ℚ) * 0 + S1 = S1 := by ring
        have e2 : (0 : ℚ) + S1 / p1 = S1 / p1 := by ring
        rw [e1, e2]
        have e3 : S1 / p1 * (S1 / (S1 / p1)) = S1 := by
          field_simp
        rw [e3]

/-- C9 witness: two concrete YES buys ($10 at 0.5 then $30 at 0.75) on a
fresh engine, every hypothesis discharged at the input; the final entry
price is (10+30)/(20+40) = 2/3. -/
theorem buy_entry_weighted_avg_witness :
    mapGet freshEngine.positions "m1" = none ∧
    (0 : ℚ) < 1/2 ∧ (1/2 : ℚ) ≤ 1 ∧ (0 : ℚ) < 3/4 ∧ (3/4 : ℚ) ≤ 1 ∧
    (1/2 : ℚ) ≠ 3/4 ∧ (0 : ℚ) < 10 ∧ (0 : ℚ) < 30 ∧
    (10 : ℚ) ≤ freshEngine.currentBalance ∧
    (10 : ℚ) + 30 ≤ freshEngine.currentBalance ∧
    ∃ r1 st1 r2 st2,
      executeTrade (emptyStore 30000) 0 freshEngine
        (mkBuyOrder "m1" "c1" TradeSide.yes 10 (1/2)) = Except.ok (r1, st1) ∧
      executeTrade (emptyStore 30000) 0 st1
        (mkBuyOrder "m1" "c1" TradeSide.yes 30 (3/4)) = Except.ok (r2, st2) ∧
      ∃ pos2, mapGet st2.positions "m1" = some pos2 ∧
        (if TradeSide.yes = TradeSide.yes then pos2.yesTokens else pos2.noTokens)
          = 10 / (1/2) + 30 / (3/4) ∧
        (if TradeSide.yes = TradeSide.yes then pos2.yesEntryPrice else pos2.noEntryPrice)
          = (10 + 30) / (10 / (1/2) + 30 / (3/4)) :=
  ⟨rfl, by norm_num, by norm_num, by norm_num, by norm_num, by norm_num,
   by norm_num, by norm_num, by norm_num [freshEngine], by norm_num [freshEngine],
   buy_entry_weighted_avg.2 (emptyStore 30000) 0 freshEngine "m1" "c1"
     TradeSide.yes 10 (1/2) 30 (3/4) rfl (by norm_num) (by norm_num)
     (by norm_num) (by norm_num) (by norm_num) (by norm_num) (by norm_num)
     (by norm_num [freshEngine]) (by norm_num [freshEngine])⟩

/- ------------------------------------------------------------------ -/
/- C4: proportional copy sizing                                       -/
/- ------------------------------------------------------------------ -/

theorem jsOrQ_of_ne (a b : ℚ) (h : a ≠ 0) : jsOrQ a b = a := by
  unfold jsOrQ
  rw [if_neg h]

/-- C4: for a new trade of size S with V the user's window volume excluding
the trade's own hash (config fields nonzero so the `|| default` fallbacks
are inert): fewer than 2 window entries gives max(minTradeSize,
0.10·maxTradeSize); V < minVolumeForScaling gives max(minTradeSize,
0.05·maxTradeSize); otherwise maxTradeSize·(S/V) clamped to
[minTradeSize, maxTradeSize]. -/
theorem calculateProportionalSize_spec (cfg : CopyTradingConfig)
    (tradeHistory : Option (List (String × ℚ))) (tradeSize : ℚ) (tradeHash : String)
    (hmin : cfg.minTradeSize ≠ 0) (hmax : cfg.maxTradeSize ≠ 0)
    (hvol : cfg.minVolumeForScaling ≠ 0) :
    ((tradeHistory.getD []).length < 2 →
      calculateProportionalSize cfg tradeHistory tradeSize tradeHash
        = max cfg.minTradeSize (cfg.maxTradeSize * (1/10))) ∧
    (2 ≤ (tradeHistory.getD []).length →
      windowVolumeExcluding (tradeHistory.getD []) tradeHash < cfg.minVolumeForScaling →
      calculateProportionalSize cfg tradeHistory tradeSize tradeHash
        = max cfg.minTradeSize (cfg.maxTradeSize * (1/20))) ∧
    (2 ≤ (tradeHistory.getD []).length →
      cfg.minVolumeForScaling ≤ windowVolumeExcluding (tradeHistory.getD []) tradeHash →
      calculateProportionalSize cfg tradeHistory tradeSize tradeHash
        = min (max cfg.minTradeSize
            (cfg.maxTradeSize *
              (tradeSize / windowVolumeExcluding (tradeHistory.getD []) tradeHash)))
            cfg.maxTradeSize) := by
  unfold calculateProportionalSize
  rw [jsOrQ_of_ne _ _ hvol, jsOrQ_of_ne _ _ hmax, jsOrQ_of_ne _ _ hmin]
  rcases tradeHistory with _ | window
  · refine ⟨fun _ => rfl, ?_, ?_⟩
    · intro hlen
      simp at hlen
    · intro hlen
      simp at hlen
  · simp only [Option.getD]
    refine ⟨?_, ?_, ?_⟩
    · intro hlen
      rw [if_pos hlen]
    · intro hlen hv
      rw [if_neg (not_lt.mpr hlen), if_pos hv]
    · intro hlen hv
      rw [if_neg (not_lt.mpr hlen), if_neg (not_lt.mpr hv)]
      congr 1
      congr 1
      ring

/-- The source's default sizing configuration. -/
def copyCfg : CopyTradingConfig :=
  { minTradeSize := 10, maxTradeSize := 1000, recentTradesWindow := 15,
    minVolumeForScaling := 1000 }

/-- A three-entry window: $800 + $600 of prior volume plus the $100 trade
being copied (hash h3). -/
def demoWindow : List (String × ℚ) := [("h1", 800), ("h2", 600), ("h3", 100)]

/-- C4 witness: with the default config and a window of prior volume
V = 1400, copying a $200 trade sizes to 1000·(200/1400) = 1000/7, inside
the clamp. -/
theorem calculateProportionalSize_spec_witness :
    copyCfg.minTradeSize ≠ 0 ∧ copyCfg.maxTradeSize ≠ 0 ∧
    copyCfg.minVolumeForScaling ≠ 0 ∧
    (2 ≤ ((some demoWindow).getD []).length →
      copyCfg.minVolumeForScaling ≤
        windowVolumeExcluding ((some demoWindow).getD []) "h3" →
      calculateProportionalSize copyCfg (some demoWindow) 200 "h3"
        = min (max copyCfg.minTradeSize
            (copyCfg.maxTradeSize *
              (200 / windowVolumeExcluding ((some demoWindow).getD []) "h3")))
            copyCfg.maxTradeSize) ∧
    calculateProportionalSize copyCfg (some demoWindow) 200 "h3" = 1000/7 :=
  ⟨by norm_num [copyCfg], by norm_num [copyCfg], by norm_num [copyCfg],
   (calculateProportionalSize_spec copyCfg (some demoWindow) 200 "h3"
     (by norm_num [copyCfg]) (by norm_num [copyCfg]) (by norm_num [copyCfg])).2.2,
   by with_unfolding_all decide⟩

/- ------------------------------------------------------------------ -/
/- C8: per-user trade window                                          -/
/- ------------------------------------------------------------------ -/

theorem mapKeys_mapReplace (m : List (String × ℚ)) (k : String) (v : ℚ) :
    mapKeys (mapReplace m k v) = mapKeys m := by
  induction m with
  | nil => rfl
  | cons e rest ih =>
    by_cases hk : e.1 = k
    · simp [mapReplace, hk, mapKeys]
    · simp only [mapReplace, if_neg hk, mapKeys, List.map_cons]
      rw [show List.map (fun x => x.1) (mapReplace rest k v) = mapKeys (mapReplace rest k v) from rfl,
        show List.map (fun x => x.1) rest = mapKeys rest from rfl, ih]

theorem length_mapReplace (m : List (String × ℚ)) (k : String) (v : ℚ) :
    (mapReplace m k v).length = m.length := by
  induction m with
  | nil => rfl
  | cons e rest ih =>
    by_cases hk : e.1 = k
    · simp [mapReplace, hk]
    · simp [mapReplace, hk, ih]

theorem mapContains_eq_false_iff (m : List (String × ℚ)) (k : String) :
    mapContains m k = false ↔ k ∉ mapKeys m := by
  induction m with
  | nil => simp [mapContains, mapKeys]
  | cons e rest ih =>
    by_cases hk : e.1 = k
    · rw [mapContains, if_pos hk]
      simp only [Bool.true_eq_false, false_iff, not_not]
      rw [mapKeys, List.map_cons, hk]
      exact List.mem_cons_self _ _
    · rw [mapContains, if_neg hk, ih]
      unfold mapKeys
      simp only [List.map_cons, List.mem_cons, not_or]
      constructor
      · intro h
        exact ⟨fun hh => hk hh.symm, h⟩
      · intro h
        exact h.2

theorem mapContains_of_mem (m : List (String × ℚ)) (k : String) (v : ℚ)
    (h : (k, v) ∈ m) : mapContains m k = true := by
  induction m with
  | nil => simp at h
  | cons e rest ih =>
    rcases List.mem_cons.mp h with h | h
    · rw [mapContains, if_pos (by rw [← h])]
    · by_cases hk : e.1 = k
      · rw [mapContains, if_pos hk]
      · rw [mapContains, if_neg hk]
        exact ih h

theorem mapDelete_cons_self (e : String × ℚ) (rest : List (String × ℚ)) :
    mapDelete (e :: rest) e.1 = mapDelete rest e.1 := by
  simp [mapDelete]

theorem mapDelete_of_not_mem_keys (m : List (String × ℚ)) (k : String)
    (h : k ∉ mapKeys m) : mapDelete m k = m := by
  induction m with
  | nil => rfl
  | cons e rest ih =>
    simp only [mapKeys, List.map_cons, List.mem_cons, not_or] at h
    rw [mapDelete, if_neg (fun hh => h.1 hh.symm)]
    rw [ih (by simpa [mapKeys] using h.2)]

theorem mapReplace_self (m : List (String × ℚ)) (k : String) (v : ℚ)
    (hmem : (k, v) ∈ m) (hnd : (mapKeys m).Nodup) : mapReplace m k v = m := by
  induction m with
  | nil => simp at hmem
  | cons e rest ih =>
    rw [mapKeys, List.map_cons, List.nodup_cons] at hnd
    rcases List.mem_cons.mp hmem with h | h
    · rw [mapReplace, if_pos (by rw [← h]), ← h]
    · have hk : e.1 ≠ k := by
        intro hk
        apply hnd.1
        rw [hk]
        exact List.mem_map_of_mem _ h
      rw [mapReplace, if_neg hk, ih h hnd.2]

/-- The per-user trade-window invariant: nonempty keys, no duplicate keys,
and at most `W` entries. -/
def windowInv (W : ℕ) (w : List (String × ℚ)) : Prop :=
  (∀ e ∈ w, e.1 ≠ "") ∧ (mapKeys w).Nodup ∧ w.length ≤ W

theorem windowInsert_inv (W : ℕ) (w : List (String × ℚ)) (k : String) (v : ℚ)
    (hw : windowInv W w) (hk : k ≠ "") : windowInv W (windowInsert W w k v) := by
  obtain ⟨hkeys, hnd, hlen⟩ := hw
  have hkeys1 : ∀ e ∈ mapSet w k v, e.1 ≠ "" := by
    intro e he
    rcases mem_mapSet he with h | h
    · exact hkeys e h
    · rw [h]
      exact hk
  have hnd1 : (mapKeys (mapSet w k v)).Nodup := by
    unfold mapSet
    by_cases hc : mapContains w k = true
    · rw [if_pos hc, mapKeys_mapReplace]
      exact hnd
    · rw [if_neg hc]
      have hnotin : k ∉ mapKeys w :=
        (mapContains_eq_false_iff w k).mp (Bool.not_eq_true _ ▸ hc)
      simp only [mapKeys, List.map_append, List.map_cons, List.map_nil]
      rw [List.nodup_append]
      refine ⟨hnd, List.nodup_singleton k, ?_⟩
      intro a ha hb
      simp at hb
      rw [hb] at ha
      exact hnotin ha
  have hlen1 : (mapSet w k v).length ≤ w.length + 1 := by
    unfold mapSet
    by_cases hc : mapContains w k = true
    · rw [if_pos hc, length_mapReplace]
      omega
    · rw [if_neg hc]
      simp
  unfold windowInsert
  by_cases hover : W < (mapSet w k v).length
  · rw [if_pos hover]
    rcases hw1 : mapSet w k v with _ | ⟨first, rest⟩
    · rw [hw1] at hover
      simp at hover
    · have hfirst : first.1 ≠ "" := by
        apply hkeys1
        rw [hw1]
        exact List.mem_cons_self _ _
      dsimp only
      rw [if_neg hfirst]
      have hndrest : (mapKeys (first :: rest)).Nodup := hw1 ▸ hnd1
      rw [mapKeys, List.map_cons, List.nodup_cons] at hndrest
      rw [mapDelete_cons_self, mapDelete_of_not_mem_keys rest first.1 hndrest.1]
      refine ⟨?_, hndrest.2, ?_⟩
      · intro e he
        apply hkeys1
        rw [hw1]
        exact List.mem_cons_of_mem _ he
      · have : (mapSet w k v).length ≤ w.length + 1 := hlen1
        rw [hw1] at this
        simp at this
        omega
  · rw [if_neg hover]
    exact ⟨hkeys1, hnd1, not_lt.mp hover⟩

theorem windowFold_inv_aux (W : ℕ) (inserts : List (String × ℚ)) :
    ∀ w, windowInv W w → (∀ e ∈ inserts, e.1 ≠ "") →
      windowInv W (inserts.foldl (fun w e => windowInsert W w e.1 e.2) w) := by
  induction inserts with
  | nil => intro w hw _; exact hw
  | cons e rest ih =>
    intro w hw hkeys
    simp only [List.foldl_cons]
    exact ih _ (windowInsert_inv W w e.1 e.2 hw (hkeys e (List.mem_cons_self _ _)))
      (fun f hf => hkeys f (List.mem_cons_of_mem _ hf))

/-- C8 (amended): provided every inserted transaction hash is nonempty
(the source's `if (firstHash)` skips eviction for a falsy oldest key):
(1) after any insertion sequence the window holds at most W entries;
(2) inserting a (W+1)-th distinct hash into a full window (W ≥ 1) evicts
exactly the oldest entry; (3) re-inserting a present hash with its same
size leaves the window — its entry count and its size sum — unchanged. -/
theorem tradeWindow_spec (W : ℕ) :
    (∀ inserts : List (String × ℚ), (∀ e ∈ inserts, e.1 ≠ "") →
      (windowFold W inserts).length ≤ W) ∧
    (∀ (w : List (String × ℚ)) (k : String) (v : ℚ),
      (mapKeys w).Nodup → (∀ e ∈ w, e.1 ≠ "") → w.length = W → 0 < W →
      k ≠ "" → mapContains w k = false →
      windowInsert W w k v = w.tail ++ [(k, v)]) ∧
    (∀ (w : List (String × ℚ)) (k : String) (v : ℚ),
      (mapKeys w).Nodup → w.length ≤ W → (k, v) ∈ w →
      windowInsert W w k v = w ∧
      (windowInsert W w k v).length = w.length ∧
      (windowInsert W w k v).foldl (fun acc e => acc + e.2) 0
        = w.foldl (fun acc e => acc + e.2) 0) := by
  refine ⟨?_, ?_, ?_⟩
  · intro inserts hkeys
    exact (windowFold_inv_aux W inserts [] ⟨by simp, by simp [mapKeys], by simp⟩ hkeys).2.2
  · intro w k v hnd hkeys hlen hW hk hc
    have hset : mapSet w k v = w ++ [(k, v)] := by
      unfold mapSet
      rw [if_neg (by rw [hc]; simp)]
    rcases w with _ | ⟨first, t⟩
    · rw [← hlen] at hW
      simp at hW
    · unfold windowInsert
      rw [hset]
      have hlw : W < ((first :: t) ++ [(k, v)]).length := by
        simp at hlen ⊢
        omega
      rw [if_pos hlw]
      have hfirst : first.1 ≠ "" := hkeys first (List.mem_cons_self _ _)
      simp only [List.cons_append]
      rw [if_neg hfirst]
      rw [mapDelete_cons_self]
      rw [mapKeys, List.map_cons, List.nodup_cons] at hnd
      have hne : first.1 ≠ k := by
        intro hh
        have : mapContains (first :: t) k = true := by
          rw [mapContains, if_pos hh]
        rw [this] at hc
        cases hc
      have hnotin : first.1 ∉ mapKeys (t ++ [(k, v)]) := by
        unfold mapKeys
        rw [List.map_append]
        simp only [List.mem_append, List.map_cons, List.map_nil, List.mem_singleton]
        rintro (h | h)
        · exact hnd.1 h
        · exact hne (by simpa using h)
      rw [mapDelete_of_not_mem_keys _ _ hnotin]
      rfl
  · intro w k v hnd hlen hmem
    have hset : mapSet w k v = w := by
      unfold mapSet
      rw [if_pos (mapContains_of_mem w k v hmem), mapReplace_self w k v hmem hnd]
    have h1 : windowInsert W w k v = w := by
      unfold windowInsert
      rw [hset, if_neg (not_lt.mpr hlen)]
    exact ⟨h1, by rw [h1], by rw [h1]⟩

/-- C8 (counterexample): with window capacity W = 1, inserting hash "" and
then "a" leaves 2 entries — the eviction step is skipped because the oldest
key, the empty string, is JS-falsy (`if (firstHash)`), so the claimed
at-most-W bound fails for arbitrary hashes. -/
theorem claim_C8_counterexample :
    ¬ ((windowFold 1 [("", 5), ("a", 3)]).length ≤ 1) := by
  with_unfolding_all decide

/-- C8 witness: inserting a third distinct hash into the full two-entry
window [a, b] evicts exactly a, with every hypothesis discharged at the
input. -/
theorem tradeWindow_spec_witness :
    (mapKeys [("a", (1:ℚ)), ("b", 2)]).Nodup ∧
    (∀ e ∈ [("a", (1:ℚ)), ("b", 2)], e.1 ≠ "") ∧
    ([("a", (1:ℚ)), ("b", 2)] : List (String × ℚ)).length = 2 ∧ (0 : ℕ) < 2 ∧
    ("c" : String) ≠ "" ∧ mapContains [("a", (1:ℚ)), ("b", 2)] "c" = false ∧
    windowInsert 2 [("a", 1), ("b", 2)] "c" 7
      = ([("a", (1:ℚ)), ("b", 2)] : List (String × ℚ)).tail ++ [("c", 7)] :=
  ⟨by with_unfolding_all decide, by with_unfolding_all decide,
   by with_unfolding_all decide, by norm_num,
   by with_unfolding_all decide, by with_unfolding_all decide,
   (tradeWindow_spec 2).2.1 [("a", 1), ("b", 2)] "c" 7
     (by with_unfolding_all decide) (by with_unfolding_all decide)
     (by with_unfolding_all decide) (by norm_num)
     (by with_unfolding_all decide) (by with_unfolding_all decide)⟩

/- ------------------------------------------------------------------ -/
/- C10: closePosition realized-PnL accrual                            -/
/- ------------------------------------------------------------------ -/

/-- A position of 10 YES tokens bought at entry 0.4 ($4 cost). -/
def closeBugPos : Position :=
  { marketId := "m1", conditionId := "c1", yesTokens := 10, noTokens := 0,
    yesEntryPrice := 2/5, noEntryPrice := 0, yesCurrentPrice := none,
    noCurrentPrice := none, entryTimestamp := 0, lastUpdate := 0,
    unrealizedPnL := 0, totalEntryCost := 4 }

/-- A live market quoting a YES best bid of 0.5. -/
def closeBugMarket : MarketData :=
  { marketId := "m1", conditionId := "c1",
    yesPrices := { bid := some (1/2), ask := some (11/20), lastUpdate := 0 },
    noPrices := { bid := none, ask := none, lastUpdate := 0 },
    lastUpdate := 0, isStale := false }

/-- The store holding that market. -/
def closeBugStore : MarketStore :=
  { markets := [("m1", closeBugMarket)], staleThresholdMs := 30000 }

/-- An engine holding the position with $100 cash and zero realized PnL. -/
def closeBugEngine : EngineState :=
  { positions := [("m1", closeBugPos)], tradeHistory := [],
    currentBalance := 100, realizedPnL := 0, startingCapital := 100 }

/-- C10: closing 10 YES tokens (entry 0.4) at best bid 0.5 should accrue
realizedPnL += 10·(0.5 − 0.4) = 1 per the claim (and spec §4.4's
"realizedPnL += tokens·(fillPrice − entryPrice) per leg", which the code's
own comment echoes), but the source computes that line from the position
object AFTER executeTrade has already sold and zeroed the leg (both names
alias the same map entry), so a filled leg always accrues 0: the engine
ends with realizedPnL = 0, balance 105, the position deleted and the leg
filled. -/
theorem closePosition_filled_leg_zero_pnl :
    (fun out => (out.2.realizedPnL, out.2.currentBalance,
        (mapGet out.2.positions "m1").isSome,
        out.1.map (fun r => r.status),
        out.2.tradeHistory.length))
      (closePosition closeBugStore 0 closeBugEngine "m1")
      = ((0 : ℚ), (105 : ℚ), false, [OrderStatus.filled], 1) ∧
    (10 : ℚ) * (1/2 - 2/5) = 1 := by
  constructor
  · with_unfolding_all decide
  · norm_num

end Polybot
